import Mathlib

/-!
Verification of the KustoExporter repository (table/function schema export
scripts). Strings of the Python source are modelled as `List Char`; Python
`str.strip`, `str.find`, slicing and the regex-based helpers are translated
into executable Lean functions. Absent (`None`) and empty string metadata
fields are both modelled as `[]`, matching the truthiness tests
(`if not func_name`) the source applies to them.
-/

/-- Python `str.strip()` whitespace set (ASCII): space, tab, newline,
carriage return, vertical tab, form feed. -/
def isPySpace (c : Char) : Bool :=
  c = ' ' || c = '\t' || c = '\n' || c = '\r' || c = '\x0b' || c = '\x0c'

/-- Python `s.strip()`: drop leading and trailing whitespace. -/
def pyStrip (s : List Char) : List Char :=
  ((s.dropWhile isPySpace).reverse.dropWhile isPySpace).reverse

/-- Python `s.find '('` together with the split it induces: `some (pre, rest)`
with `s = pre ++ '(' :: rest` and no `'('` in `pre`; `none` when `s` has no
`'('` (the `start_idx = -1` case of `parse_parameters_field`). -/
def splitAtFirstParen : List Char → Option (List Char × List Char)
  | [] => none
  | c :: r =>
    if c = '(' then some ([], r)
    else (splitAtFirstParen r).map (fun p => (c :: p.1, p.2))

/-- The depth-tracking scan of `parse_parameters_field` (source lines 99-106),
started just after the first `'('` with `paren_count = depth`: returns the
characters strictly before the `')'` that brings the depth to zero, or `none`
when the scan runs off the end (unbalanced input). -/
def findMatchingParen : List Char → Nat → List Char → Option (List Char)
  | [], _, _ => none
  | c :: rest, depth, acc =>
    if c = '(' then findMatchingParen rest (depth + 1) (acc ++ [c])
    else if c = ')' then
      if depth = 1 then some acc
      else findMatchingParen rest (depth - 1) (acc ++ [c])
    else findMatchingParen rest depth (acc ++ [c])

/-- `FunctionExporter.parse_parameters_field` (export-function-schemas.py,
lines 89-108): empty field gives `""`; no `'('` gives the stripped field;
otherwise the stripped text between the first `'('` and its depth-zero
matching `')'`, or the stripped tail after the first `'('` when no matching
`')'` exists. -/
def parseParametersField (s : List Char) : List Char :=
  if s = [] then []
  else
    match splitAtFirstParen s with
    | none => pyStrip s
    | some pr =>
      match findMatchingParen pr.2 1 [] with
      | some inner => pyStrip inner
      | none => pyStrip pr.2

/-- Specification-side predicate: `a` is a balanced-parenthesis interior
(a Dyck word over `'('`/`')'` relative to start depth `d`, every other
character ignored). `dyckAux a 0 = true` says the `')'` written right after
`a` is the matching close of the `'('` written right before `a`. -/
def dyckAux : List Char → Nat → Bool
  | [], d => d == 0
  | c :: r, d =>
    if c = '(' then dyckAux r (d + 1)
    else if c = ')' then decide (0 < d) && dyckAux r (d - 1)
    else dyckAux r d

theorem length_dropWhile_le (p : Char → Bool) (l : List Char) :
    (l.dropWhile p).length ≤ l.length := by
  induction l with
  | nil => simp [List.dropWhile]
  | cons c t ih =>
    rw [List.dropWhile_cons]
    split
    · exact Nat.le_trans ih (Nat.le_succ _)
    · exact Nat.le_refl _

/-- One iteration of the group `(\s*//.*\n)` of the substitution
`re.sub(r'^(\s*//.*\n)*\s*', '', body, flags=re.MULTILINE)` of
`extract_function_signature` (source line 69): whitespace, `//`, the rest of
the line, the newline. `none` when the group does not match here (no `//`
after the whitespace, or a trailing comment with no newline, which the group
cannot consume). -/
def commentStep (s : List Char) : Option (List Char) :=
  match s.dropWhile isPySpace with
  | '/' :: '/' :: t =>
    match t.dropWhile (fun c => !(c == '\n')) with
    | '\n' :: r => some r
    | _ => none
  | _ => none

theorem commentStep_length_lt (s r : List Char) (h : commentStep s = some r) :
    r.length < s.length := by
  unfold commentStep at h
  have h1 : (s.dropWhile isPySpace).length ≤ s.length := length_dropWhile_le _ _
  split at h
  · rename_i t hw
    rw [hw] at h1
    have h2 : (t.dropWhile (fun c => !(c == '\n'))).length ≤ t.length :=
      length_dropWhile_le _ _
    split at h
    · rename_i r' hr
      cases h
      rw [hr] at h2
      simp only [List.length_cons] at h1 h2
      omega
    · cases h
  · cases h

/-- The regex of source line 69 applied at one line start: greedily consume
whitespace and complete `//`-comment lines (the final `\s*` covers the
whitespace when no further comment line follows). -/
def stripLeadingComments (s : List Char) : List Char :=
  match hc : commentStep s with
  | some r => stripLeadingComments r
  | none => s.dropWhile isPySpace
termination_by s.length
decreasing_by
  exact commentStep_length_lt s r hc

/-- Characters the substitution copies unchanged, up to and including the
next newline, paired with the remainder (which again starts at a line
start). -/
def copyToLineStart : List Char → List Char × List Char
  | [] => ([], [])
  | c :: r =>
    if c = '\n' then (['\n'], r)
    else
      let p := copyToLineStart r
      (c :: p.1, p.2)

theorem copyToLineStart_snd_lt (t : List Char) (h : t ≠ []) :
    (copyToLineStart t).2.length < t.length := by
  induction t with
  | nil => cases h rfl
  | cons c r ih =>
    simp only [copyToLineStart]
    split
    · simp
    · by_cases hr : r = []
      · subst hr
        simp [copyToLineStart]
      · exact Nat.lt_trans (ih hr) (Nat.lt_succ_self _)

theorem stripLeadingComments_length_le (s : List Char) :
    (stripLeadingComments s).length ≤ s.length := by
  induction s using stripLeadingComments.induct with
  | case1 s r hc ih =>
    rw [stripLeadingComments]
    split
    · rename_i r' hc'
      rw [hc] at hc'
      cases hc'
      exact le_of_lt (lt_of_le_of_lt ih (commentStep_length_lt s r hc))
    · rename_i hc'
      rw [hc] at hc'
      cases hc'
  | case2 s hc =>
    rw [stripLeadingComments]
    split
    · rename_i r' hc'
      rw [hc] at hc'
      cases hc'
    · exact length_dropWhile_le _ _

/-- The whole multiline substitution of source line 69: at every line start
remove the maximal run of comment lines and whitespace, copying everything
else unchanged. -/
def cleanBody (s : List Char) : List Char :=
  match hs : stripLeadingComments s with
  | [] => []
  | c :: t =>
    let p := copyToLineStart (c :: t)
    p.1 ++ cleanBody p.2
termination_by s.length
decreasing_by
  have h1 : (stripLeadingComments s).length ≤ s.length := stripLeadingComments_length_le s
  rw [hs] at h1
  have h2 := copyToLineStart_snd_lt (c :: t) (by simp)
  simp only [List.length_cons] at h1 h2
  omega

/-- `[^)]*\)` after an opening parenthesis: the characters before the first
`')'`, or `none` when there is no `')'` (the whole regex match then fails). -/
def grabUntilClose : List Char → Option (List Char)
  | [] => none
  | c :: r =>
    if c = ')' then some []
    else (grabUntilClose r).map (fun l => c :: l)

/-- The pattern `{re.escape(func_name)}\s*\(([^)]*)\)` of source line 72
tried at one fixed position: the literal name, optional whitespace, `'('`,
then the group up to the first `')'`. -/
def matchNameParen (funcName s : List Char) : Option (List Char) :=
  if funcName.isPrefixOf s then
    match (s.drop funcName.length).dropWhile isPySpace with
    | '(' :: rest => grabUntilClose rest
    | _ => none
  else none

/-- `re.search` of that pattern: try every start position left to right. -/
def searchNameParen (funcName : List Char) : List Char → Option (List Char)
  | [] => matchNameParen funcName []
  | c :: rest =>
    match matchNameParen funcName (c :: rest) with
    | some r => some r
    | none => searchNameParen funcName rest

/-- Fallback pattern `^\s*[^(]*\(([^)]*)\)` with `re.MULTILINE` (source line
80). Position 0 is always a line start and `\s*[^(]*` together consume
exactly the characters before the first `'('` of the text (neither class
matches `'('`, both match newlines), so the search succeeds if and only if
the text has a `'('` with some later `')'`, and the group is the text
between the first `'('` and the first `')'` after it; when that fails there
is no `')'` after the first `'('`, hence no later line start can succeed
either. -/
def parenFallback (s : List Char) : Option (List Char) :=
  match splitAtFirstParen s with
  | none => none
  | some pr => grabUntilClose pr.2

/-- `FunctionExporter.extract_function_signature` (source lines 66-87). -/
def extractFunctionSignature (funcBody funcName : List Char) : List Char :=
  match searchNameParen funcName (cleanBody funcBody) with
  | some params => pyStrip params
  | none =>
    match parenFallback (cleanBody funcBody) with
    | some params => pyStrip params
    | none => []

/-- `re.sub(r'\s*,\s*', ',', s)` (source line 157): replace every run of
whitespace, comma, whitespace by a single comma. -/
def normCommas : List Char → List Char
  | [] => []
  | c :: rest =>
    match hw : (c :: rest).dropWhile isPySpace with
    | ',' :: r => ',' :: normCommas (r.dropWhile isPySpace)
    | _ => c :: normCommas rest
termination_by s => s.length
decreasing_by
  · rename_i rest
    have h1 := length_dropWhile_le isPySpace (c :: rest)
    rw [hw] at h1
    have h2 := length_dropWhile_le isPySpace r
    simp only [List.length_cons] at h1 ⊢
    omega
  · rename_i rest
    simp only [List.length_cons]
    omega

/-- `re.sub(r'\s+', ' ', s)` (source line 158): collapse every whitespace
run to a single space. -/
def normSpaces : List Char → List Char
  | [] => []
  | c :: rest =>
    if isPySpace c then ' ' :: normSpaces (rest.dropWhile isPySpace)
    else c :: normSpaces rest
termination_by s => s.length
decreasing_by
  · simp only [List.length_cons]
    exact Nat.lt_succ_of_le (length_dropWhile_le _ _)
  · simp only [List.length_cons]
    exact Nat.lt_succ_self _

/-- `doc_string.replace('"', '\\"')` (first step of source line 173). -/
def escQuotes : List Char → List Char
  | [] => []
  | c :: r => if c = '"' then '\\' :: '"' :: escQuotes r else c :: escQuotes r

/-- `.replace('\n', '\\n')` (second step of source line 173). -/
def escNewlines : List Char → List Char
  | [] => []
  | c :: r => if c = '\n' then '\\' :: 'n' :: escNewlines r else c :: escNewlines r

/-- `.replace('\r', '')` (third step of source line 173). -/
def dropCR (s : List Char) : List Char := s.filter (fun c => !(c == '\r'))

/-- The docstring escaping of source line 173, in the exact order the three
`replace` calls are chained. -/
def escapeDocstring (s : List Char) : List Char := dropCR (escNewlines (escQuotes s))

/-- Python `','.join`. -/
def joinComma : List (List Char) → List Char
  | [] => []
  | [x] => x
  | x :: y :: t => x ++ ',' :: joinComma (y :: t)

/-- The `with_clauses` list of source lines 171-176: docstring clause first
(when the docstring is non-empty), then folder clause (when non-empty). -/
def withClauseList (docString folder : List Char) : List (List Char) :=
  (if docString = [] then []
   else [("docstring = \"").data ++ escapeDocstring docString ++ ['"']]) ++
  (if folder = [] then []
   else [("folder = \"").data ++ folder ++ ['"']])

/-- Source lines 178-179: the ` with (...)` segment, present only when the
clause list is non-empty. -/
def withPart (docString folder : List Char) : List Char :=
  if withClauseList docString folder = [] then []
  else (" with (").data ++ joinComma (withClauseList docString folder) ++ [')']

/-- Source lines 182-185: ` name(params) {\n` (parameters possibly empty). -/
def namePart (funcName parameters : List Char) : List Char :=
  if parameters ≠ [] then
    ' ' :: (funcName ++ '(' :: (parameters ++ [')', ' ', '\x7b', '\n']))
  else
    ' ' :: (funcName ++ ['(', ')', ' ', '\x7b', '\n'])

/-- The `create_cmd` text built by source lines 168-185, before the body is
appended. -/
def buildCreateCmd (funcName parameters docString folder : List Char) : List Char :=
  (".create-or-alter function").data ++ withPart docString folder ++
    namePart funcName parameters

/-- The `parameters` value of source lines 140-158: parsed from the
`Parameters` field when that is non-empty, otherwise extracted from the
body, then (when non-empty) stripped, comma-normalized and
whitespace-collapsed. The `try/except` of lines 141-153 is dropped:
`parse_parameters_field` and `extract_function_signature` cannot raise, so
the `except` fallback is dead code. -/
def paramsOf (funcName funcBody parametersField : List Char) : List Char :=
  let parameters0 :=
    if parametersField ≠ [] then parseParametersField parametersField
    else extractFunctionSignature funcBody funcName
  if parameters0 ≠ [] then normSpaces (normCommas (pyStrip parameters0))
  else parameters0

/-- The body text placed between the rebuilt braces (source lines 188-196):
the stripped body, with one outer brace pair removed (and the interior
re-stripped) when the stripped body both starts with `{` and ends with
`}`. -/
def innerBodyOf (funcBody : List Char) : List Char :=
  if pyStrip funcBody ≠ [] then
    if (pyStrip funcBody).head? = some '\x7b' ∧ (pyStrip funcBody).getLast? = some '\x7d' then
      pyStrip (((pyStrip funcBody).drop 1).dropLast)
    else pyStrip funcBody
  else []

/-- `FunctionExporter.build_function_kql` (source lines 128-201), returning
the `(kql_content, error)` pair. Metadata fields are `List Char` with `[]`
standing for a missing or empty field, matching the truthiness tests of the
source. -/
def buildFunctionKql (funcName funcBody docString folder parametersField : List Char) :
    Option (List Char) × Option (List Char) :=
  if funcName = [] ∨ funcBody = [] then
    (none, some (("Missing required function data").data))
  else
    (some (buildCreateCmd funcName (paramsOf funcName funcBody parametersField)
      docString folder ++ innerBodyOf funcBody ++ ['\n', '\x7d']), none)

/-- Python `needle in haystack` substring test (source line 115). -/
def containsSub (needle : List Char) : List Char → Bool
  | [] => needle.isEmpty
  | c :: rest => needle.isPrefixOf (c :: rest) || containsSub needle rest

/-- `FunctionExporter.validate_kql_function` (source lines 110-126): four
checks applied in order, each failure returning `false` with its own reason
text, success returning `(true, "Valid")`. -/
def validateKqlFunction (kqlContent funcName : List Char) : Bool × List Char :=
  if !((".create-or-alter function").data.isPrefixOf (pyStrip kqlContent)) then
    (false, ("KQL doesn't start with .create-or-alter function").data)
  else if !(containsSub funcName kqlContent) then
    (false, ("Function name ").data ++ funcName ++ (" not found in KQL").data)
  else if kqlContent.count '\x7b' ≠ kqlContent.count '\x7d' then
    (false, ("Unbalanced braces: ").data ++ (Nat.repr (kqlContent.count '\x7b')).data ++
      (" open, ").data ++ (Nat.repr (kqlContent.count '\x7d')).data ++ (" close").data)
  else if (pyStrip kqlContent).getLast? ≠ some '\x7d' then
    (false, ("KQL doesn't end with closing brace").data)
  else (true, ("Valid").data)

/-- Python `\w` for the ASCII inputs at hand: letter, digit or underscore. -/
def isWordChar (c : Char) : Bool := c.isAlphanum || c = '_'

/-- `re.sub(r'(\w+):(\w+)', r'\1: \2', s)` (export-table-schemas.py line 73)
as the left-to-right scan `re.sub` performs, one character per step. `run`
is the word run read so far (reversed); state `0` is accumulating the first
run, state `1` has just read the colon after a non-empty first run, state
`2` is consuming the second run of a completed match (the scan resumes
after it, so in a chain `a:b:c` the pass rewrites only `a:b`, exactly as
`re.sub` does). A position where the pattern cannot match emits its
characters unchanged. -/
def colonSubGo (run : List Char) (st : Nat) : List Char → List Char
  | [] =>
    if st = 0 then run.reverse
    else if st = 1 then run.reverse ++ [':']
    else []
  | c :: rest =>
    if st = 0 then
      if isWordChar c then colonSubGo (c :: run) 0 rest
      else if c = ':' ∧ run ≠ [] then colonSubGo run 1 rest
      else run.reverse ++ c :: colonSubGo [] 0 rest
    else if st = 1 then
      if isWordChar c then run.reverse ++ ':' :: ' ' :: c :: colonSubGo [] 2 rest
      else run.reverse ++ ':' :: c :: colonSubGo [] 0 rest
    else
      if isWordChar c then c :: colonSubGo [] 2 rest
      else c :: colonSubGo [] 0 rest

/-- The whole substitution of export-table-schemas.py line 73. -/
def colonSub (s : List Char) : List Char := colonSubGo [] 0 s

/-- Somewhere in the text a word character is directly followed by a colon
directly followed by a word character (the redex of the colon-spacing
substitution). -/
def hasColonPair : List Char → Bool
  | a :: b :: c :: r => (isWordChar a && b = ':' && isWordChar c) || hasColonPair (b :: c :: r)
  | _ => false

/-- `TableExporter._format_schema_definition` (export-table-schemas.py lines
64-74): strip, wrap in parentheses unless the text already starts with
`'('`, then apply the colon-spacing substitution. -/
def formatSchemaDefinition (s : List Char) : List Char :=
  colonSub (if (pyStrip s).head? = some '(' then pyStrip s
    else '(' :: (pyStrip s ++ [')']))

/-- The metadata dictionary shape the export loop reads (keys `Name`,
`Body`, `DocString`, `Folder`, `Parameters`); `[]` models a missing or
empty field, matching the truthiness tests of the source. -/
structure FuncDetails where
  name : List Char
  body : List Char
  docString : List Char
  folder : List Char
  parameters : List Char

/-- Outcome of `get_function_details func` as the loop of
`_export_function_files` observes it: a `KustoApiError` propagating out of
the call, some other raised error, a `None` result, or a metadata record. -/
inductive FetchOutcome where
  | apiError
  | otherError
  | noDetails
  | details (d : FuncDetails)

/-- Environment of one run: the fetch outcome per listed function and
whether `write_file` succeeds for a given function name. -/
structure RunEnv where
  fetch : List Char → FetchOutcome
  writeOk : List Char → Bool

/-- One iteration of the loop of `_export_function_files` (source lines
257-313): `some name` exactly when the object was exported (its file
written); `none` on every failure path (API error, unexpected error, no
details, missing name/body, build error, validation failure, write
failure). -/
def processFunc (env : RunEnv) (func : List Char) : Option (List Char) :=
  match env.fetch func with
  | .apiError => none
  | .otherError => none
  | .noDetails => none
  | .details d =>
    if d.name = [] ∨ d.body = [] then none
    else
      match buildFunctionKql d.name d.body d.docString d.folder d.parameters with
      | (_, some _) => none
      | (some kql, none) =>
        if (validateKqlFunction kql d.name).1 then
          if env.writeOk d.name then some d.name else none
        else none
      | (none, none) => none

/-- The `(exported_count, failed_count, exported_functions)` state update of
one loop iteration. -/
def exportStep (env : RunEnv) (acc : Nat × Nat × List (List Char))
    (func : List Char) : Nat × Nat × List (List Char) :=
  match processFunc env func with
  | some n => (acc.1 + 1, acc.2.1, acc.2.2 ++ [n])
  | none => (acc.1, acc.2.1 + 1, acc.2.2)

/-- `_export_function_files` (source lines 250-315). -/
def exportFunctionFiles (env : RunEnv) (funcs : List (List Char)) :
    Nat × Nat × List (List Char) :=
  funcs.foldl (exportStep env) (0, 0, [])

/-- `ExportSummary.print_summary` (kusto_export_utils.py lines 379-393)
reduced to the exit code it returns: `0` iff at least one object was
exported. -/
def printSummaryExit (_totalFound exported _failed : Nat) : Nat :=
  if 0 < exported then 0 else 1

/-- `FunctionExporter.export_functions` (source lines 203-248) reduced to
its observable outcome: the process exit code together with the list of
per-object files written. `authOk` and `dirOk` model the boolean results of
`authenticate()` and `create_output_directory()`; `listing` is `none` when
`.show functions` raises a `KustoApiError`, otherwise the listed names.
README generation touches neither observable and is omitted. -/
def exportFunctionsRun (authOk dirOk : Bool) (listing : Option (List (List Char)))
    (env : RunEnv) : Nat × List (List Char) :=
  if !authOk then (1, [])
  else if !dirOk then (1, [])
  else
    match listing with
    | none => (1, [])
    | some funcs =>
      if funcs = [] then (1, [])
      else
        let r := exportFunctionFiles env funcs
        (printSummaryExit funcs.length r.1 r.2.1, r.2.2)

/-- A result row of `.show function [name]` as the two access paths of
`get_function_details` see it: `asDict` is `row.to_dict()` (`none` models
that call raising), `cells` the positional values (`none` models indexed
access raising). -/
structure ResultRow where
  asDict : Option (List (List Char × List Char))
  cells : Option (List (List Char))

/-- The primary result table: its rows and the reported column names
(`none` models the attribute access raising inside the fallback). -/
structure ResultTable where
  rows : List ResultRow
  columns : Option (List (List Char))

/-- `FunctionExporter.get_function_details` (source lines 28-64). The remote
call either raises a `KustoApiError` (`Except.error`), which the function
re-raises, or returns a table. `List.zip` reproduces
`for i, col in enumerate(columns): if i < len(row): d[col] = row[i]`. -/
def getFunctionDetails (res : Except (List Char) ResultTable) :
    Except (List Char) (Option (List (List Char × List Char))) :=
  match res with
  | .error e => .error e
  | .ok t =>
    match t.rows with
    | [] => .ok none
    | row :: _ =>
      match row.asDict with
      | some d => .ok (some d)
      | none =>
        match t.columns, row.cells with
        | some cols, some cs => .ok (some (cols.zip cs))
        | _, _ => .ok none

/-- Per-character escaping as the spec describes it, for comparison with
the chained `replace` calls of the source: a double quote becomes
backslash-quote, a newline becomes the two characters backslash-`n`, a
carriage return is deleted, anything else is kept. -/
def docstringEscapeSpec (c : Char) : List Char :=
  if c = '"' then ['\\', '"']
  else if c = '\n' then ['\\', 'n']
  else if c = '\r' then []
  else [c]

/-- The last character, when there is one, is not whitespace (what
`str.strip` leaves behind on the right). -/
def lastNonSpace (l : List Char) : Prop :=
  ∀ b, l.getLast? = some b → isPySpace b = false

theorem findMatchingParen_dyck (a : List Char) : ∀ (d : Nat) (b acc : List Char),
    dyckAux a d = true →
    findMatchingParen (a ++ ')' :: b) (d + 1) acc = some (acc ++ a) := by
  induction a with
  | nil =>
    intro d b acc h
    simp [dyckAux] at h
    subst h
    simp [findMatchingParen]
  | cons c t ih =>
    intro d b acc h
    by_cases hc : c = '('
    · subst hc
      simp only [dyckAux, if_pos rfl] at h
      have := ih (d + 1) b (acc ++ ['(']) h
      simp only [List.cons_append, findMatchingParen, if_pos rfl] at *
      simpa [List.append_assoc] using this
    · by_cases hc2 : c = ')'
      · subst hc2
        rw [show dyckAux (')' :: t) d = (decide (0 < d) && dyckAux t (d - 1)) by
          simp [dyckAux, hc]] at h
        rw [Bool.and_eq_true, decide_eq_true_eq] at h
        obtain ⟨hd, ht⟩ := h
        have hd1 : d - 1 + 1 = d := Nat.succ_pred_eq_of_pos hd
        have := ih (d - 1) b (acc ++ [')']) ht
        rw [hd1] at this
        have hne : ¬ d + 1 = 1 := by omega
        simp only [List.cons_append, findMatchingParen, if_neg hc, if_pos rfl, if_neg hne]
        simp only [Nat.add_sub_cancel]
        simpa [List.append_assoc] using this
      · simp only [dyckAux, if_neg hc, if_neg hc2] at h
        have := ih d b (acc ++ [c]) h
        simp only [List.cons_append, findMatchingParen, if_neg hc, if_neg hc2]
        simpa [List.append_assoc] using this

theorem splitAtFirstParen_append (pre rest : List Char) (h : '(' ∉ pre) :
    splitAtFirstParen (pre ++ '(' :: rest) = some (pre, rest) := by
  induction pre with
  | nil => simp [splitAtFirstParen]
  | cons c t ih =>
    simp only [List.mem_cons, not_or] at h
    have hc : ¬ c = '(' := fun e => h.1 e.symm
    simp [splitAtFirstParen, hc, ih h.2]

theorem splitAtFirstParen_none (s : List Char) (h : '(' ∉ s) :
    splitAtFirstParen s = none := by
  induction s with
  | nil => rfl
  | cons c t ih =>
    simp only [List.mem_cons, not_or] at h
    have hc : ¬ c = '(' := fun e => h.1 e.symm
    simp [splitAtFirstParen, hc, ih h.2]

/-- C1: for a non-empty parameters field of shape `pre ( a ) b` where `pre`
has no `'('` (so the shown `'('` is the first one) and `a` is balanced (so
the shown `')'` is the depth-zero match of that `'('`),
`parse_parameters_field` returns exactly the stripped interior `a`; and for
a non-empty field containing no `'('` at all it returns the stripped field
verbatim. -/
theorem parseParametersField_spec :
    (∀ pre a b : List Char, '(' ∉ pre → dyckAux a 0 = true →
      parseParametersField (pre ++ '(' :: (a ++ ')' :: b)) = pyStrip a) ∧
    (∀ s : List Char, s ≠ [] → '(' ∉ s → parseParametersField s = pyStrip s) := by
  constructor
  · intro pre a b hpre hdyck
    have hne : ¬ pre ++ '(' :: (a ++ ')' :: b) = [] := by simp
    have hfind := findMatchingParen_dyck a 0 b [] hdyck
    simp only [Nat.zero_add, List.nil_append] at hfind
    unfold parseParametersField
    rw [if_neg hne, splitAtFirstParen_append pre _ hpre]
    simp only [hfind]
  · intro s hs hparen
    unfold parseParametersField
    rw [if_neg hs, splitAtFirstParen_none s hparen]

theorem parseParametersField_spec_wit :
    parseParametersField (("foo").data ++ '(' ::
        ((("a: string, b: tolong((x))").data) ++ ')' :: [])) =
      pyStrip (("a: string, b: tolong((x))").data) ∧
    parseParametersField (("a: real").data) = pyStrip (("a: real").data) :=
  ⟨ parseParametersField_spec.1 (("foo").data) (("a: string, b: tolong((x))").data) []
      (by decide) (by decide),
    parseParametersField_spec.2 (("a: real").data) (by decide) (by decide)⟩

theorem dropWhile_eq_self_of_head (p : Char → Bool) (l : List Char) (a : Char)
    (h : l.head? = some a) (hp : p a = false) : l.dropWhile p = l := by
  cases l with
  | nil => cases h
  | cons c t =>
    simp only [List.head?_cons, Option.some.injEq] at h
    subst h
    simp [List.dropWhile_cons, hp]

theorem pyStrip_eq_self (l : List Char) (a b : Char)
    (ha : l.head? = some a) (hpa : isPySpace a = false)
    (hb : l.getLast? = some b) (hpb : isPySpace b = false) : pyStrip l = l := by
  unfold pyStrip
  rw [dropWhile_eq_self_of_head isPySpace l a ha hpa,
    dropWhile_eq_self_of_head isPySpace l.reverse b (by rw [List.head?_reverse]; exact hb) hpb,
    List.reverse_reverse]

theorem containsSub_iff (n h : List Char) : containsSub n h = true ↔ n <:+: h := by
  induction h with
  | nil => simp [containsSub, List.isEmpty_iff, List.infix_nil]
  | cons c r ih =>
    simp [containsSub, ih, List.infix_cons_iff, List.isPrefixOf_iff_prefix]

theorem eq_cons_append_of_head_getLast (l : List Char) (a b : Char) (hab : a ≠ b)
    (ha : l.head? = some a) (hb : l.getLast? = some b) :
    ∃ m, l = a :: (m ++ [b]) := by
  cases l with
  | nil => cases ha
  | cons c t =>
    obtain rfl : a = c := by
      simp only [List.head?_cons, Option.some.injEq] at ha
      exact ha.symm
    by_cases ht : t = []
    · subst ht
      simp only [List.getLast?_singleton, Option.some.injEq] at hb
      exact absurd hb hab
    · refine ⟨t.dropLast, ?_⟩
      have hdl : t.dropLast ++ [t.getLast ht] = t := List.dropLast_append_getLast ht
      have h3 : (a :: t) = (a :: t.dropLast) ++ [t.getLast ht] := by
        rw [List.cons_append, hdl]
      have hbb : t.getLast ht = b := by
        rw [h3, List.getLast?_concat] at hb
        exact Option.some.inj hb
      rw [h3, hbb]
      simp

theorem buildCreateCmd_split (n p d f : List Char) :
    ∃ q, buildCreateCmd n p d f = q ++ [')', ' ', '\x7b', '\n'] := by
  unfold buildCreateCmd namePart
  by_cases hp : p = []
  · rw [if_neg (not_not_intro hp)]
    exact ⟨(".create-or-alter function").data ++ withPart d f ++ (' ' :: n) ++ ['('],
      by simp [List.append_assoc]⟩
  · rw [if_pos hp]
    exact ⟨(".create-or-alter function").data ++ withPart d f ++ (' ' :: n) ++ '(' :: p,
      by simp [List.append_assoc]⟩

theorem namePart_split (n p : List Char) :
    ∃ x, namePart n p = [' '] ++ n ++ x := by
  unfold namePart
  by_cases hp : p = []
  · rw [if_neg (not_not_intro hp)]
    exact ⟨['(', ')', ' ', '\x7b', '\n'], by simp⟩
  · rw [if_pos hp]
    exact ⟨'(' :: (p ++ [')', ' ', '\x7b', '\n']), by simp⟩

theorem buildFunctionKql_some (funcName funcBody docString folder parametersField : List Char)
    (hc : ¬ (funcName = [] ∨ funcBody = [])) :
    (buildFunctionKql funcName funcBody docString folder parametersField).1 =
      some (buildCreateCmd funcName (paramsOf funcName funcBody parametersField)
        docString folder ++ innerBodyOf funcBody ++ ['\n', '\x7d']) := by
  simp only [buildFunctionKql, if_neg hc]

theorem innerBodyOf_braced (funcBody inner : List Char)
    (h : pyStrip funcBody = '\x7b' :: (inner ++ ['\x7d'])) :
    innerBodyOf funcBody = pyStrip inner := by
  have hne : pyStrip funcBody ≠ [] := by rw [h]; simp
  have hhead : (pyStrip funcBody).head? = some '\x7b' := by rw [h]; rfl
  have hlast : (pyStrip funcBody).getLast? = some '\x7d' := by
    rw [h, show '\x7b' :: (inner ++ ['\x7d']) = ('\x7b' :: inner) ++ ['\x7d'] from rfl]
    exact List.getLast?_concat _
  unfold innerBodyOf
  rw [if_pos hne, if_pos ⟨hhead, hlast⟩, h]
  congr 1
  rw [show ('\x7b' :: (inner ++ ['\x7d'])).drop 1 = inner ++ ['\x7d'] from rfl]
  exact List.dropLast_concat

theorem innerBodyOf_unbraced (funcBody : List Char) (hne : pyStrip funcBody ≠ [])
    (hnb : ¬ ∃ inner, pyStrip funcBody = '\x7b' :: (inner ++ ['\x7d'])) :
    innerBodyOf funcBody = pyStrip funcBody := by
  have hcond : ¬ ((pyStrip funcBody).head? = some '\x7b' ∧
      (pyStrip funcBody).getLast? = some '\x7d') := by
    rintro ⟨hh, hl⟩
    obtain ⟨m, hm⟩ := eq_cons_append_of_head_getLast _ '\x7b' '\x7d' (by decide) hh hl
    exact hnb ⟨m, hm⟩
  unfold innerBodyOf
  rw [if_pos hne, if_neg hcond]

/-- C9: `build_function_kql` returns `(None, "Missing required function
data")` exactly when the `Name` field or the `Body` field is absent or
empty; when both are present and non-empty it returns a statement and no
error. -/
theorem buildFunctionKql_missing_data
    (funcName funcBody docString folder parametersField : List Char) :
    (buildFunctionKql funcName funcBody docString folder parametersField =
        (none, some (("Missing required function data").data)) ↔
      (funcName = [] ∨ funcBody = [])) ∧
    (funcName ≠ [] → funcBody ≠ [] →
      ∃ s, buildFunctionKql funcName funcBody docString folder parametersField =
        (some s, none)) := by
  constructor
  · constructor
    · intro h
      by_cases hc : funcName = [] ∨ funcBody = []
      · exact hc
      · rw [show buildFunctionKql funcName funcBody docString folder parametersField =
          (some (buildCreateCmd funcName (paramsOf funcName funcBody parametersField)
            docString folder ++ innerBodyOf funcBody ++ ['\n', '\x7d']), none) by
            simp only [buildFunctionKql, if_neg hc]] at h
        simp at h
    · intro h
      simp only [buildFunctionKql, if_pos h]
  · intro h1 h2
    have hc : ¬ (funcName = [] ∨ funcBody = []) := by
      rintro (h | h)
      · exact h1 h
      · exact h2 h
    refine ⟨buildCreateCmd funcName (paramsOf funcName funcBody parametersField)
      docString folder ++ innerBodyOf funcBody ++ ['\n', '\x7d'], ?_⟩
    simp only [buildFunctionKql, if_neg hc]

theorem buildFunctionKql_missing_data_wit :
    (buildFunctionKql [] (("T").data) [] [] [] =
      (none, some (("Missing required function data").data))) ∧
    ∃ s, buildFunctionKql (("F").data) (("T").data) [] [] [] = (some s, none) :=
  ⟨(buildFunctionKql_missing_data [] (("T").data) [] [] []).1.mpr (Or.inl rfl),
   (buildFunctionKql_missing_data (("F").data) (("T").data) [] [] []).2
     (by decide) (by decide)⟩

/-- C2: for a non-empty name and body, the assembled statement is a prefix
ending in `) {\n` followed by the body part and a final `\n}`; when the
stripped body is braced (`{ inner }`) the body part is the re-stripped
interior with exactly the one outer brace pair removed, otherwise it is the
stripped body verbatim; in every case the statement ends with `}` preceded
by a newline. -/
theorem buildFunctionKql_body_braces
    (funcName funcBody docString folder parametersField : List Char)
    (hn : funcName ≠ []) (hb : funcBody ≠ []) :
    ∃ pre, [')', ' ', '\x7b', '\n'] <:+ pre ∧
      (∀ inner, pyStrip funcBody = '\x7b' :: (inner ++ ['\x7d']) →
        (buildFunctionKql funcName funcBody docString folder parametersField).1 =
          some (pre ++ (pyStrip inner ++ ['\n', '\x7d']))) ∧
      (pyStrip funcBody ≠ [] →
        (¬ ∃ inner, pyStrip funcBody = '\x7b' :: (inner ++ ['\x7d'])) →
        (buildFunctionKql funcName funcBody docString folder parametersField).1 =
          some (pre ++ (pyStrip funcBody ++ ['\n', '\x7d']))) ∧
      (∃ q, (buildFunctionKql funcName funcBody docString folder parametersField).1 =
        some (q ++ ['\n', '\x7d'])) := by
  have hc : ¬ (funcName = [] ∨ funcBody = []) := by
    rintro (h | h)
    · exact hn h
    · exact hb h
  have hmain := buildFunctionKql_some funcName funcBody docString folder parametersField hc
  obtain ⟨q0, hq0⟩ := buildCreateCmd_split funcName
    (paramsOf funcName funcBody parametersField) docString folder
  refine ⟨buildCreateCmd funcName (paramsOf funcName funcBody parametersField)
    docString folder, ?_, ?_, ?_, ?_⟩
  · rw [hq0]
    exact List.suffix_append _ _
  · intro inner hin
    rw [hmain, innerBodyOf_braced funcBody inner hin]
    simp [List.append_assoc]
  · intro hne hnb
    rw [hmain, innerBodyOf_unbraced funcBody hne hnb]
    simp [List.append_assoc]
  · exact ⟨_, hmain⟩

theorem buildFunctionKql_body_braces_wit :
    ∃ pre, [')', ' ', '\x7b', '\n'] <:+ pre ∧
      (buildFunctionKql (("F").data) (("\x7b T | take 1 \x7d").data) [] [] []).1 =
        some (pre ++ (pyStrip ((" T | take 1 ").data) ++ ['\n', '\x7d'])) := by
  obtain ⟨pre, hsuf, hbraced, hrest⟩ :=
    buildFunctionKql_body_braces (("F").data) (("\x7b T | take 1 \x7d").data) [] [] []
      (by decide) (by decide)
  exact ⟨pre, hsuf, hbraced ((" T | take 1 ").data) (by decide)⟩

theorem buildFunctionKql_head (funcName funcBody docString folder parametersField kql : List Char)
    (h : (buildFunctionKql funcName funcBody docString folder parametersField).1 = some kql) :
    ∃ rest, kql = (".create-or-alter function").data ++ rest := by
  have hc : ¬ (funcName = [] ∨ funcBody = []) := by
    intro hcon
    rw [show (buildFunctionKql funcName funcBody docString folder parametersField).1 = none by
      simp only [buildFunctionKql, if_pos hcon]] at h
    cases h
  rw [buildFunctionKql_some funcName funcBody docString folder parametersField hc] at h
  refine ⟨withPart docString folder ++ namePart funcName (paramsOf funcName funcBody parametersField) ++
    innerBodyOf funcBody ++ ['\n', '\x7d'], ?_⟩
  rw [← Option.some.inj h]
  simp [buildCreateCmd, List.append_assoc]

/-- C10: every statement assembled by `build_function_kql` satisfies the
validator checks 1, 2 and 4 by construction - the stripped text starts with
`.create-or-alter function`, contains the function name, and ends with `}` -
so `validate_kql_function` accepts it exactly when its brace counts agree:
only check 3 can reject an assembled statement. -/
theorem buildFunctionKql_passes_validation
    (funcName funcBody docString folder parametersField kql : List Char)
    (h : (buildFunctionKql funcName funcBody docString folder parametersField).1 = some kql) :
    (".create-or-alter function").data <+: pyStrip kql ∧
    funcName <:+: kql ∧
    (pyStrip kql).getLast? = some '\x7d' ∧
    ((validateKqlFunction kql funcName).1 = true ↔
      kql.count '\x7b' = kql.count '\x7d') := by
  have hc : ¬ (funcName = [] ∨ funcBody = []) := by
    intro hcon
    rw [show (buildFunctionKql funcName funcBody docString folder parametersField).1 = none by
      simp only [buildFunctionKql, if_pos hcon]] at h
    cases h
  obtain ⟨rest, hrest⟩ :=
    buildFunctionKql_head funcName funcBody docString folder parametersField kql h
  have hmain := buildFunctionKql_some funcName funcBody docString folder parametersField hc
  rw [hmain] at h
  have hkql := (Option.some.inj h).symm
  have hhead : kql.head? = some '.' := by rw [hrest]; rfl
  have hlast : kql.getLast? = some '\x7d' := by
    rw [hkql, show buildCreateCmd funcName (paramsOf funcName funcBody parametersField)
        docString folder ++ innerBodyOf funcBody ++ ['\n', '\x7d'] =
      (buildCreateCmd funcName (paramsOf funcName funcBody parametersField)
        docString folder ++ innerBodyOf funcBody ++ ['\n']) ++ ['\x7d'] by
        simp [List.append_assoc]]
    exact List.getLast?_concat _
  have hstrip : pyStrip kql = kql :=
    pyStrip_eq_self kql '.' '\x7d' hhead (by decide) hlast (by decide)
  have c1 : (".create-or-alter function").data <+: pyStrip kql := by
    rw [hstrip, hrest]
    exact List.prefix_append _ _
  have c2 : funcName <:+: kql := by
    obtain ⟨x, hx⟩ := namePart_split funcName (paramsOf funcName funcBody parametersField)
    refine ⟨(".create-or-alter function").data ++ withPart docString folder ++ [' '],
      x ++ innerBodyOf funcBody ++ ['\n', '\x7d'], ?_⟩
    rw [hkql]
    simp only [buildCreateCmd, hx]
    simp [List.append_assoc]
  have c4 : (pyStrip kql).getLast? = some '\x7d' := by rw [hstrip]; exact hlast
  have b1 : (".create-or-alter function").data.isPrefixOf (pyStrip kql) = true :=
    List.isPrefixOf_iff_prefix.mpr c1
  have b2 : containsSub funcName kql = true := (containsSub_iff _ _).mpr c2
  refine ⟨c1, c2, c4, ?_⟩
  by_cases hcnt : kql.count '\x7b' = kql.count '\x7d'
  · have : validateKqlFunction kql funcName = (true, ("Valid").data) := by
      unfold validateKqlFunction
      rw [b1, b2]
      rw [if_neg (by simp), if_neg (by simp)]
      rw [if_neg (not_not_intro hcnt), if_neg (not_not_intro c4)]
    simp [this, hcnt]
  · have : validateKqlFunction kql funcName =
        (false, ("Unbalanced braces: ").data ++ (Nat.repr (kql.count '\x7b')).data ++
          (" open, ").data ++ (Nat.repr (kql.count '\x7d')).data ++ (" close").data) := by
      unfold validateKqlFunction
      rw [b1, b2]
      rw [if_neg (by simp), if_neg (by simp)]
      rw [if_pos hcnt]
    simp [this, hcnt]

theorem buildFunctionKql_passes_validation_wit :
    (".create-or-alter function").data <+:
      pyStrip ((".create-or-alter function F() \x7b\nT | take 1\n\x7d").data) ∧
    ("F").data <:+: ((".create-or-alter function F() \x7b\nT | take 1\n\x7d").data) ∧
    (pyStrip ((".create-or-alter function F() \x7b\nT | take 1\n\x7d").data)).getLast? =
      some '\x7d' ∧
    ((validateKqlFunction ((".create-or-alter function F() \x7b\nT | take 1\n\x7d").data)
        (("F").data)).1 = true ↔
      ((".create-or-alter function F() \x7b\nT | take 1\n\x7d").data).count '\x7b' =
        ((".create-or-alter function F() \x7b\nT | take 1\n\x7d").data).count '\x7d') :=
  buildFunctionKql_passes_validation (("F").data) (("T | take 1").data) [] []
    (("F()").data) ((".create-or-alter function F() \x7b\nT | take 1\n\x7d").data)
    (by decide)

theorem ne_of_head_ne (x y : List Char) (a b : Char) (hx : x.head? = some a)
    (hy : y.head? = some b) (hab : a ≠ b) : x ≠ y := by
  intro e
  rw [e, hy] at hx
  exact hab (Option.some.inj hx).symm

/-- C3: the validator applies its four checks in order - prefix, name
containment, brace-count equality, closing brace - failing fast at the
first violated check with that check's own reason text, succeeding with
`(true, "Valid")` exactly when all four hold; the four reason texts are
pairwise distinct. -/
theorem validateKqlFunction_checks (kql funcName : List Char) :
    ((validateKqlFunction kql funcName).1 = true ↔
      ((".create-or-alter function").data <+: pyStrip kql ∧ funcName <:+: kql ∧
        kql.count '\x7b' = kql.count '\x7d' ∧ (pyStrip kql).getLast? = some '\x7d')) ∧
    (¬ (".create-or-alter function").data <+: pyStrip kql →
      validateKqlFunction kql funcName =
        (false, ("KQL doesn't start with .create-or-alter function").data)) ∧
    ((".create-or-alter function").data <+: pyStrip kql → ¬ funcName <:+: kql →
      validateKqlFunction kql funcName =
        (false, ("Function name ").data ++ funcName ++ (" not found in KQL").data)) ∧
    ((".create-or-alter function").data <+: pyStrip kql → funcName <:+: kql →
      kql.count '\x7b' ≠ kql.count '\x7d' →
      validateKqlFunction kql funcName =
        (false, ("Unbalanced braces: ").data ++ (Nat.repr (kql.count '\x7b')).data ++
          (" open, ").data ++ (Nat.repr (kql.count '\x7d')).data ++ (" close").data)) ∧
    ((".create-or-alter function").data <+: pyStrip kql → funcName <:+: kql →
      kql.count '\x7b' = kql.count '\x7d' → (pyStrip kql).getLast? ≠ some '\x7d' →
      validateKqlFunction kql funcName =
        (false, ("KQL doesn't end with closing brace").data)) ∧
    ((".create-or-alter function").data <+: pyStrip kql → funcName <:+: kql →
      kql.count '\x7b' = kql.count '\x7d' → (pyStrip kql).getLast? = some '\x7d' →
      validateKqlFunction kql funcName = (true, ("Valid").data)) ∧
    List.Pairwise (fun x y => x ≠ y)
      [("KQL doesn't start with .create-or-alter function").data,
       ("Function name ").data ++ funcName ++ (" not found in KQL").data,
       ("Unbalanced braces: ").data ++ (Nat.repr (kql.count '\x7b')).data ++
         (" open, ").data ++ (Nat.repr (kql.count '\x7d')).data ++ (" close").data,
       ("KQL doesn't end with closing brace").data] := by
  have e1 : ¬ (".create-or-alter function").data <+: pyStrip kql →
      validateKqlFunction kql funcName =
        (false, ("KQL doesn't start with .create-or-alter function").data) := by
    intro h
    have b1 : (".create-or-alter function").data.isPrefixOf (pyStrip kql) = false := by
      rw [← Bool.not_eq_true]
      exact fun hb => h (List.isPrefixOf_iff_prefix.mp hb)
    unfold validateKqlFunction
    rw [b1]
    simp
  have e2 : (".create-or-alter function").data <+: pyStrip kql → ¬ funcName <:+: kql →
      validateKqlFunction kql funcName =
        (false, ("Function name ").data ++ funcName ++ (" not found in KQL").data) := by
    intro h1 h2
    have b1 : (".create-or-alter function").data.isPrefixOf (pyStrip kql) = true :=
      List.isPrefixOf_iff_prefix.mpr h1
    have b2 : containsSub funcName kql = false := by
      rw [← Bool.not_eq_true]
      exact fun hb => h2 ((containsSub_iff _ _).mp hb)
    unfold validateKqlFunction
    rw [b1, b2]
    simp
  have e3 : (".create-or-alter function").data <+: pyStrip kql → funcName <:+: kql →
      kql.count '\x7b' ≠ kql.count '\x7d' →
      validateKqlFunction kql funcName =
        (false, ("Unbalanced braces: ").data ++ (Nat.repr (kql.count '\x7b')).data ++
          (" open, ").data ++ (Nat.repr (kql.count '\x7d')).data ++ (" close").data) := by
    intro h1 h2 h3
    have b1 : (".create-or-alter function").data.isPrefixOf (pyStrip kql) = true :=
      List.isPrefixOf_iff_prefix.mpr h1
    have b2 : containsSub funcName kql = true := (containsSub_iff _ _).mpr h2
    unfold validateKqlFunction
    rw [b1, b2]
    rw [if_neg (by simp), if_neg (by simp), if_pos h3]
  have e4 : (".create-or-alter function").data <+: pyStrip kql → funcName <:+: kql →
      kql.count '\x7b' = kql.count '\x7d' → (pyStrip kql).getLast? ≠ some '\x7d' →
      validateKqlFunction kql funcName =
        (false, ("KQL doesn't end with closing brace").data) := by
    intro h1 h2 h3 h4
    have b1 : (".create-or-alter function").data.isPrefixOf (pyStrip kql) = true :=
      List.isPrefixOf_iff_prefix.mpr h1
    have b2 : containsSub funcName kql = true := (containsSub_iff _ _).mpr h2
    unfold validateKqlFunction
    rw [b1, b2]
    rw [if_neg (by simp), if_neg (by simp), if_neg (not_not_intro h3), if_pos h4]
  have e5 : (".create-or-alter function").data <+: pyStrip kql → funcName <:+: kql →
      kql.count '\x7b' = kql.count '\x7d' → (pyStrip kql).getLast? = some '\x7d' →
      validateKqlFunction kql funcName = (true, ("Valid").data) := by
    intro h1 h2 h3 h4
    have b1 : (".create-or-alter function").data.isPrefixOf (pyStrip kql) = true :=
      List.isPrefixOf_iff_prefix.mpr h1
    have b2 : containsSub funcName kql = true := (containsSub_iff _ _).mpr h2
    unfold validateKqlFunction
    rw [b1, b2]
    rw [if_neg (by simp), if_neg (by simp), if_neg (not_not_intro h3),
      if_neg (not_not_intro h4)]
  refine ⟨?_, e1, e2, e3, e4, e5, ?_⟩
  · constructor
    · intro hv
      by_cases p1 : (".create-or-alter function").data <+: pyStrip kql
      · by_cases p2 : funcName <:+: kql
        · by_cases p3 : kql.count '\x7b' = kql.count '\x7d'
          · by_cases p4 : (pyStrip kql).getLast? = some '\x7d'
            · exact ⟨p1, p2, p3, p4⟩
            · rw [e4 p1 p2 p3 p4] at hv
              cases hv
          · rw [e3 p1 p2 p3] at hv
            cases hv
        · rw [e2 p1 p2] at hv
          cases hv
      · rw [e1 p1] at hv
        cases hv
    · rintro ⟨p1, p2, p3, p4⟩
      rw [e5 p1 p2 p3 p4]
  · refine List.pairwise_cons.mpr ⟨?_, List.pairwise_cons.mpr ⟨?_,
      List.pairwise_cons.mpr ⟨?_, List.pairwise_cons.mpr ⟨?_, List.Pairwise.nil⟩⟩⟩⟩
    · intro m hm
      rcases List.mem_cons.mp hm with rfl | hm2
      · exact ne_of_head_ne _ _ 'K' 'F' rfl rfl (by decide)
      rcases List.mem_cons.mp hm2 with rfl | hm3
      · exact ne_of_head_ne _ _ 'K' 'U' rfl rfl (by decide)
      rcases List.mem_cons.mp hm3 with rfl | hm4
      · exact (by decide : ("KQL doesn't start with .create-or-alter function").data ≠
          ("KQL doesn't end with closing brace").data)
      · exact absurd hm4 (List.not_mem_nil m)
    · intro m hm
      rcases List.mem_cons.mp hm with rfl | hm2
      · exact ne_of_head_ne _ _ 'F' 'U' rfl rfl (by decide)
      rcases List.mem_cons.mp hm2 with rfl | hm3
      · exact ne_of_head_ne _ _ 'F' 'K' rfl rfl (by decide)
      · exact absurd hm3 (List.not_mem_nil m)
    · intro m hm
      rcases List.mem_cons.mp hm with rfl | hm2
      · exact ne_of_head_ne _ _ 'U' 'K' rfl rfl (by decide)
      · exact absurd hm2 (List.not_mem_nil m)
    · intro m hm
      exact absurd hm (List.not_mem_nil m)

theorem validateKqlFunction_checks_wit :
    validateKqlFunction ((".create-or-alter function f() \x7b a").data) (("f").data) =
      (false, ("Unbalanced braces: ").data ++
        (Nat.repr (((".create-or-alter function f() \x7b a").data).count '\x7b')).data ++
        (" open, ").data ++
        (Nat.repr (((".create-or-alter function f() \x7b a").data).count '\x7d')).data ++
        (" close").data) :=
  (validateKqlFunction_checks ((".create-or-alter function f() \x7b a").data)
    (("f").data)).2.2.2.1 (by decide) (by decide) (by decide)

theorem exportFoldl_counts (env : RunEnv) (funcs : List (List Char)) :
    ∀ acc : Nat × Nat × List (List Char),
      (funcs.foldl (exportStep env) acc).1 + (funcs.foldl (exportStep env) acc).2.1 =
        acc.1 + acc.2.1 + funcs.length ∧
      (funcs.foldl (exportStep env) acc).2.2.length + acc.1 =
        (funcs.foldl (exportStep env) acc).1 + acc.2.2.length := by
  induction funcs with
  | nil =>
    intro acc
    constructor
    · simp
    · simp [Nat.add_comm]
  | cons f fs ih =>
    intro acc
    simp only [List.foldl_cons, List.length_cons]
    cases hp : processFunc env f with
    | some n =>
      obtain ⟨ih1, ih2⟩ := ih (acc.1 + 1, acc.2.1, acc.2.2 ++ [n])
      rw [show exportStep env acc f = (acc.1 + 1, acc.2.1, acc.2.2 ++ [n]) by
        simp [exportStep, hp]]
      dsimp only at ih1 ih2
      simp only [List.length_append, List.length_cons, List.length_nil] at ih1 ih2 ⊢
      constructor
      · omega
      · omega
    | none =>
      obtain ⟨ih1, ih2⟩ := ih (acc.1, acc.2.1 + 1, acc.2.2)
      rw [show exportStep env acc f = (acc.1, acc.2.1 + 1, acc.2.2) by
        simp [exportStep, hp]]
      dsimp only at ih1 ih2
      constructor
      · omega
      · omega

/-- C5: over the loop of `_export_function_files`, every listed object
increments exactly one of the two counters - `some` outcomes add one to
`exported` and append the name, every failure outcome adds one to `failed`
and moves on - so afterwards `exported + failed` equals the number of
listed functions and `exported` equals the length of the exported-names
list. -/
theorem exportFunctionFiles_counts (env : RunEnv) (funcs : List (List Char)) :
    ((exportFunctionFiles env funcs).1 + (exportFunctionFiles env funcs).2.1 =
      funcs.length) ∧
    ((exportFunctionFiles env funcs).1 = (exportFunctionFiles env funcs).2.2.length) ∧
    (∀ (acc : Nat × Nat × List (List Char)) (f : List Char),
      processFunc env f = none →
      exportStep env acc f = (acc.1, acc.2.1 + 1, acc.2.2)) ∧
    (∀ (acc : Nat × Nat × List (List Char)) (f : List Char) (n : List Char),
      processFunc env f = some n →
      exportStep env acc f = (acc.1 + 1, acc.2.1, acc.2.2 ++ [n])) := by
  obtain ⟨h1, h2⟩ := exportFoldl_counts env funcs (0, 0, [])
  refine ⟨?_, ?_, ?_, ?_⟩
  · simpa using h1
  · simp only [List.length_nil] at h2
    unfold exportFunctionFiles
    omega
  · intro acc f hp
    simp [exportStep, hp]
  · intro acc f n hp
    simp [exportStep, hp]

theorem exportFunctionFiles_counts_wit :
    exportStep (RunEnv.mk (fun _ => FetchOutcome.noDetails) (fun _ => true))
      (0, 0, []) (("F").data) = (0, 0 + 1, []) :=
  (exportFunctionFiles_counts
    (RunEnv.mk (fun _ => FetchOutcome.noDetails) (fun _ => true)) []).2.2.1
    (0, 0, []) (("F").data) rfl

/-- C4: the exit code of the function export driver is `0` exactly when at
least one object was exported (the exported-names list is non-empty), it is
always `0` or `1`, and every run-level failure - authentication, directory
creation, listing error, empty listing - yields exit code `1` with no
per-object file written. -/
theorem exportFunctionsRun_exit_code (authOk dirOk : Bool)
    (listing : Option (List (List Char))) (env : RunEnv) :
    ((exportFunctionsRun authOk dirOk listing env).1 = 0 ↔
      (exportFunctionsRun authOk dirOk listing env).2 ≠ []) ∧
    ((exportFunctionsRun authOk dirOk listing env).1 = 0 ∨
      (exportFunctionsRun authOk dirOk listing env).1 = 1) ∧
    ((authOk = false ∨ dirOk = false ∨ listing = none ∨ listing = some []) →
      exportFunctionsRun authOk dirOk listing env = (1, [])) := by
  cases authOk with
  | false => simp [exportFunctionsRun]
  | true =>
    cases dirOk with
    | false => simp [exportFunctionsRun]
    | true =>
      cases listing with
      | none => simp [exportFunctionsRun]
      | some funcs =>
        by_cases hf : funcs = []
        · subst hf
          simp [exportFunctionsRun]
        · obtain ⟨h1, h2⟩ := exportFoldl_counts env funcs (0, 0, [])
          rw [show List.foldl (exportStep env) (0, 0, []) funcs =
            exportFunctionFiles env funcs from rfl] at h1 h2
          dsimp only at h1 h2
          simp only [List.length_nil, Nat.add_zero, Nat.zero_add] at h1 h2
          have hrun : exportFunctionsRun true true (some funcs) env =
              (printSummaryExit funcs.length (exportFunctionFiles env funcs).1
                (exportFunctionFiles env funcs).2.1,
               (exportFunctionFiles env funcs).2.2) := by
            simp [exportFunctionsRun, hf]
          refine ⟨?_, ?_, ?_⟩
          · rw [hrun]
            unfold printSummaryExit
            by_cases he : 0 < (exportFunctionFiles env funcs).1
            · rw [if_pos he]
              simp only [true_iff]
              intro hnil
              rw [hnil] at h2
              simp at h2
              omega
            · rw [if_neg he]
              constructor
              · intro h
                cases h
              · intro hne
                exfalso
                have hlen : 0 < (exportFunctionFiles env funcs).2.2.length :=
                  List.length_pos.mpr hne
                omega
          · rw [hrun]
            unfold printSummaryExit
            by_cases he : 0 < (exportFunctionFiles env funcs).1
            · rw [if_pos he]
              exact Or.inl rfl
            · rw [if_neg he]
              exact Or.inr rfl
          · rintro (h | h | h | h)
            · cases h
            · cases h
            · cases h
            · rw [Option.some.inj h] at hf
              exact absurd rfl hf

theorem exportFunctionsRun_exit_code_wit :
    exportFunctionsRun false true (some [("F1").data])
      (RunEnv.mk (fun _ => FetchOutcome.noDetails) (fun _ => true)) = (1, []) :=
  (exportFunctionsRun_exit_code false true (some [("F1").data])
    (RunEnv.mk (fun _ => FetchOutcome.noDetails) (fun _ => true))).2.2 (Or.inl rfl)

/-- C6: `get_function_details` re-raises a remote API error, never raises
otherwise; an empty result set gives `None`; a row whose `to_dict()`
succeeds is returned directly; when `to_dict()` fails the row is rebuilt
positionally from the reported column names; and when both access paths
fail the result is `None`. -/
theorem getFunctionDetails_fallback :
    (∀ e : List Char, getFunctionDetails (Except.error e) = Except.error e) ∧
    (∀ t : ResultTable, ∃ o, getFunctionDetails (Except.ok t) = Except.ok o) ∧
    (∀ t : ResultTable, t.rows = [] → getFunctionDetails (Except.ok t) = Except.ok none) ∧
    (∀ (t : ResultTable) (row : ResultRow) (rest : List ResultRow)
        (d : List (List Char × List Char)),
      t.rows = row :: rest → row.asDict = some d →
      getFunctionDetails (Except.ok t) = Except.ok (some d)) ∧
    (∀ (t : ResultTable) (row : ResultRow) (rest : List ResultRow)
        (cols cs : List (List Char)),
      t.rows = row :: rest → row.asDict = none →
      t.columns = some cols → row.cells = some cs →
      getFunctionDetails (Except.ok t) = Except.ok (some (cols.zip cs))) ∧
    (∀ (t : ResultTable) (row : ResultRow) (rest : List ResultRow),
      t.rows = row :: rest → row.asDict = none →
      (t.columns = none ∨ row.cells = none) →
      getFunctionDetails (Except.ok t) = Except.ok none) := by
  refine ⟨fun e => rfl, ?_, ?_, ?_, ?_, ?_⟩
  · rintro ⟨rows, columns⟩
    cases rows with
    | nil => exact ⟨none, rfl⟩
    | cons row rest =>
      cases hd : row.asDict with
      | some d =>
        refine ⟨some d, ?_⟩
        simp [getFunctionDetails, hd]
      | none =>
        cases hc : columns with
        | some cols =>
          cases hcell : row.cells with
          | some cs =>
            refine ⟨some (cols.zip cs), ?_⟩
            simp [getFunctionDetails, hd, hcell]
          | none =>
            refine ⟨none, ?_⟩
            simp [getFunctionDetails, hd, hcell]
        | none =>
          cases hcell : row.cells with
          | some cs =>
            refine ⟨none, ?_⟩
            simp [getFunctionDetails, hd, hcell]
          | none =>
            refine ⟨none, ?_⟩
            simp [getFunctionDetails, hd, hcell]
  · rintro ⟨rows, columns⟩ hr
    dsimp only at hr
    subst hr
    rfl
  · rintro ⟨rows, columns⟩ row rest d hr hd
    dsimp only at hr
    subst hr
    simp [getFunctionDetails, hd]
  · rintro ⟨rows, columns⟩ row rest cols cs hr hd hc hcell
    dsimp only at hr hc
    subst hr
    subst hc
    simp [getFunctionDetails, hd, hcell]
  · rintro ⟨rows, columns⟩ row rest hr hd hor
    dsimp only at hr
    subst hr
    rcases hor with hc | hcell
    · dsimp only at hc
      subst hc
      cases hcell : row.cells with
      | some cs => simp [getFunctionDetails, hd, hcell]
      | none => simp [getFunctionDetails, hd, hcell]
    · cases hc : columns with
      | some cols => simp [getFunctionDetails, hd, hcell, hc]
      | none => simp [getFunctionDetails, hd, hcell, hc]

theorem getFunctionDetails_fallback_wit :
    getFunctionDetails (Except.ok (ResultTable.mk
      [ResultRow.mk none (some [("v1").data, ("v2").data])]
      (some [("Name").data, ("Body").data, ("Extra").data]))) =
      Except.ok (some ([("Name").data, ("Body").data, ("Extra").data].zip
        [("v1").data, ("v2").data])) :=
  getFunctionDetails_fallback.2.2.2.2.1
    (ResultTable.mk [ResultRow.mk none (some [("v1").data, ("v2").data])]
      (some [("Name").data, ("Body").data, ("Extra").data]))
    (ResultRow.mk none (some [("v1").data, ("v2").data])) []
    [("Name").data, ("Body").data, ("Extra").data] [("v1").data, ("v2").data]
    rfl rfl rfl rfl

theorem escapeDocstring_flatMap (s : List Char) :
    escapeDocstring s = s.flatMap docstringEscapeSpec := by
  induction s with
  | nil => rfl
  | cons c r ih =>
    by_cases h1 : c = '"'
    · subst h1
      unfold escapeDocstring at *
      rw [show escQuotes ('"' :: r) = '\\' :: '"' :: escQuotes r by
        simp [escQuotes]]
      rw [show escNewlines ('\\' :: '"' :: escQuotes r) =
        '\\' :: '"' :: escNewlines (escQuotes r) by simp +decide [escNewlines]]
      rw [show dropCR ('\\' :: '"' :: escNewlines (escQuotes r)) =
        '\\' :: '"' :: dropCR (escNewlines (escQuotes r)) by simp +decide [dropCR]]
      rw [ih]
      simp +decide [docstringEscapeSpec]
    · by_cases h2 : c = '\n'
      · subst h2
        unfold escapeDocstring at *
        rw [show escQuotes ('\n' :: r) = '\n' :: escQuotes r by simp +decide [escQuotes]]
        rw [show escNewlines ('\n' :: escQuotes r) =
          '\\' :: 'n' :: escNewlines (escQuotes r) by simp [escNewlines]]
        rw [show dropCR ('\\' :: 'n' :: escNewlines (escQuotes r)) =
          '\\' :: 'n' :: dropCR (escNewlines (escQuotes r)) by simp +decide [dropCR]]
        rw [ih]
        simp +decide [docstringEscapeSpec]
      · by_cases h3 : c = '\r'
        · subst h3
          unfold escapeDocstring at *
          rw [show escQuotes ('\r' :: r) = '\r' :: escQuotes r by
            simp +decide [escQuotes]]
          rw [show escNewlines ('\r' :: escQuotes r) = '\r' :: escNewlines (escQuotes r) by
            simp +decide [escNewlines]]
          rw [show dropCR ('\r' :: escNewlines (escQuotes r)) =
            dropCR (escNewlines (escQuotes r)) by simp +decide [dropCR]]
          rw [ih]
          simp +decide [docstringEscapeSpec]
        · unfold escapeDocstring at *
          rw [show escQuotes (c :: r) = c :: escQuotes r by simp [escQuotes, h1]]
          rw [show escNewlines (c :: escQuotes r) = c :: escNewlines (escQuotes r) by
            simp [escNewlines, h2]]
          rw [show dropCR (c :: escNewlines (escQuotes r)) =
            c :: dropCR (escNewlines (escQuotes r)) by simp [dropCR, h3]]
          rw [ih]
          simp [docstringEscapeSpec, h1, h2, h3]

/-- C7: the docstring renders in the with-clause with every double quote
backslash-escaped, every newline turned into the two-character sequence
backslash-`n`, and every carriage return deleted (the per-character
characterization of the chained `replace` calls); the ` with (...)` segment
is present exactly when docstring or folder is non-empty, with the
docstring clause before the comma-joined folder clause. -/
theorem withClause_docstring_escaping :
    (∀ s : List Char, escapeDocstring s = s.flatMap docstringEscapeSpec) ∧
    (∀ docString folder : List Char, docString ≠ [] → folder ≠ [] →
      withPart docString folder =
        (" with (").data ++ (("docstring = \"").data ++ escapeDocstring docString ++
          ['"']) ++ [','] ++ (("folder = \"").data ++ folder ++ ['"']) ++ [')']) ∧
    (∀ docString : List Char, docString ≠ [] →
      withPart docString [] =
        (" with (").data ++ (("docstring = \"").data ++ escapeDocstring docString ++
          ['"']) ++ [')']) ∧
    (∀ folder : List Char, folder ≠ [] →
      withPart [] folder =
        (" with (").data ++ (("folder = \"").data ++ folder ++ ['"']) ++ [')']) ∧
    withPart [] [] = [] := by
  refine ⟨escapeDocstring_flatMap, ?_, ?_, ?_, rfl⟩
  · intro docString folder hd hf
    unfold withPart withClauseList
    rw [if_neg hd, if_neg hf]
    rw [if_neg (by simp)]
    simp [joinComma, List.append_assoc]
  · intro docString hd
    unfold withPart withClauseList
    rw [if_neg hd, if_pos rfl]
    rw [if_neg (by simp)]
    simp [joinComma, List.append_assoc]
  · intro folder hf
    unfold withPart withClauseList
    rw [if_pos rfl, if_neg hf]
    rw [if_neg (by simp)]
    simp [joinComma, List.append_assoc]

theorem withClause_docstring_escaping_wit :
    escapeDocstring (("Finds \"x\"\ny").data) =
      (("Finds \"x\"\ny").data).flatMap docstringEscapeSpec ∧
    withPart (("d1").data) (("f1").data) =
      (" with (").data ++ (("docstring = \"").data ++ escapeDocstring (("d1").data) ++
        ['"']) ++ [','] ++ (("folder = \"").data ++ (("f1").data) ++ ['"']) ++ [')'] :=
  ⟨withClause_docstring_escaping.1 (("Finds \"x\"\ny").data),
   withClause_docstring_escaping.2.1 (("d1").data) (("f1").data) (by decide) (by decide)⟩

theorem isWordChar_nonspace (a : Char) (h : isWordChar a = true) : isPySpace a = false := by
  by_contra hs
  rw [Bool.not_eq_false] at hs
  simp only [isPySpace, Bool.or_eq_true, decide_eq_true_eq] at hs
  rcases hs with ((((rfl | rfl) | rfl) | rfl) | rfl) | rfl <;> exact absurd h (by decide)

theorem hasColonPair_cons (d : Char) (l : List Char) (h : hasColonPair l = true) :
    hasColonPair (d :: l) = true := by
  match l with
  | [] =>
    rw [show hasColonPair [] = false from rfl] at h
    cases h
  | [x] =>
    rw [show hasColonPair [x] = false from rfl] at h
    cases h
  | b :: c :: r =>
    rw [show hasColonPair (d :: b :: c :: r) =
      ((isWordChar d && decide (b = ':') && isWordChar c) || hasColonPair (b :: c :: r))
      from rfl]
    rw [h]
    simp

theorem hasColonPair_cons_false (d : Char) (l : List Char)
    (h : hasColonPair (d :: l) = false) : hasColonPair l = false := by
  by_contra hc
  rw [Bool.not_eq_false] at hc
  rw [hasColonPair_cons d l hc] at h
  cases h

theorem hasColonPair_append_false (x y : List Char)
    (h : hasColonPair (x ++ y) = false) : hasColonPair y = false := by
  induction x with
  | nil => simpa using h
  | cons d t ih =>
    apply ih
    apply hasColonPair_cons_false d
    simpa using h

theorem hasColonPair_of_triple (x y : List Char) (a c : Char)
    (ha : isWordChar a = true) (hc : isWordChar c = true) :
    hasColonPair (x ++ a :: ':' :: c :: y) = true := by
  induction x with
  | nil =>
    rw [List.nil_append]
    rw [show hasColonPair (a :: ':' :: c :: y) =
      ((isWordChar a && decide (':' = ':') && isWordChar c) ||
        hasColonPair (':' :: c :: y)) from rfl]
    rw [ha, hc]
    simp
  | cons d t ih =>
    rw [List.cons_append]
    exact hasColonPair_cons d _ ih

theorem colonSubGo_no_pair (s : List Char) :
    (∀ run : List Char, (∀ a ∈ run, isWordChar a = true) →
      hasColonPair (run.reverse ++ s) = false →
      colonSubGo run 0 s = run.reverse ++ s) ∧
    (∀ run : List Char, run ≠ [] → (∀ a ∈ run, isWordChar a = true) →
      hasColonPair (run.reverse ++ ':' :: s) = false →
      colonSubGo run 1 s = run.reverse ++ ':' :: s) := by
  induction s with
  | nil =>
    constructor
    · intro run hw hp
      simp [colonSubGo]
    · intro run hne hw hp
      simp [colonSubGo]
  | cons c rest ih =>
    obtain ⟨ih0, ih1⟩ := ih
    constructor
    · intro run hw hp
      by_cases hwc : isWordChar c = true
      · rw [show colonSubGo run 0 (c :: rest) = colonSubGo (c :: run) 0 rest by
          simp [colonSubGo, hwc]]
        have hw2 : ∀ a ∈ c :: run, isWordChar a = true := by
          intro a ha
          rcases List.mem_cons.mp ha with rfl | ha2
          · exact hwc
          · exact hw a ha2
        have hp2 : hasColonPair ((c :: run).reverse ++ rest) = false := by
          rw [List.reverse_cons, List.append_assoc]
          simpa using hp
        rw [ih0 (c :: run) hw2 hp2, List.reverse_cons, List.append_assoc]
        simp
      · by_cases hcc : c = ':' ∧ run ≠ []
        · obtain ⟨hc1, hc2⟩ := hcc
          subst hc1
          rw [show colonSubGo run 0 (':' :: rest) = colonSubGo run 1 rest by
            simp [colonSubGo, hwc, hc2]]
          exact ih1 run hc2 hw hp
        · rw [show colonSubGo run 0 (c :: rest) = run.reverse ++ c :: colonSubGo [] 0 rest by
            simp [colonSubGo, hwc, hcc]]
          have hrest : hasColonPair rest = false := by
            have h1 : hasColonPair (c :: rest) = false := hasColonPair_append_false _ _ hp
            exact hasColonPair_cons_false c rest h1
          rw [ih0 [] (by simp) (by simpa using hrest)]
          simp
    · intro run hne hw hp
      by_cases hwc : isWordChar c = true
      · exfalso
        obtain ⟨y, x, rfl⟩ : ∃ y x, run = y :: x := by
          cases run with
          | nil => exact absurd rfl hne
          | cons y x => exact ⟨y, x, rfl⟩
        have hy : isWordChar y = true := hw y (List.mem_cons_self y x)
        have : hasColonPair (x.reverse ++ y :: ':' :: c :: rest) = true :=
          hasColonPair_of_triple x.reverse rest y c hy hwc
        rw [show (y :: x).reverse ++ ':' :: (c :: rest) =
          x.reverse ++ y :: ':' :: c :: rest by
            rw [List.reverse_cons, List.append_assoc]
            simp] at hp
        rw [this] at hp
        cases hp
      · rw [show colonSubGo run 1 (c :: rest) =
          run.reverse ++ ':' :: c :: colonSubGo [] 0 rest by simp [colonSubGo, hwc]]
        have hrest : hasColonPair rest = false := by
          have h1 : hasColonPair (':' :: c :: rest) = false :=
            hasColonPair_append_false _ _ hp
          exact hasColonPair_cons_false c rest (hasColonPair_cons_false ':' _ h1)
        rw [ih0 [] (by simp) (by simpa using hrest)]
        simp

theorem lastNonSpace_tail (c : Char) (t : List Char) (h : lastNonSpace (c :: t)) :
    lastNonSpace t := by
  cases t with
  | nil =>
    intro b hb
    cases hb
  | cons d r =>
    intro b hb
    apply h
    rw [List.getLast?_cons_cons]
    exact hb

theorem lastNonSpace_append_right (x y : List Char) (hy : y ≠ [])
    (h : lastNonSpace y) : lastNonSpace (x ++ y) := by
  intro b hb
  apply h
  rw [List.getLast?_append_of_ne_nil x hy] at hb
  exact hb

theorem lastNonSpace_concat (x : List Char) (b : Char) (hb : isPySpace b = false) :
    lastNonSpace (x ++ [b]) := by
  intro c hc
  rw [List.getLast?_concat] at hc
  rw [← Option.some.inj hc]
  exact hb

theorem colonSubGo_one_ne_nil (run : List Char) (s : List Char) :
    colonSubGo run 1 s ≠ [] := by
  cases s with
  | nil => simp [colonSubGo]
  | cons c rest =>
    by_cases hwc : isWordChar c = true
    · simp [colonSubGo, hwc]
    · simp [colonSubGo, hwc]

theorem colonSubGo_zero_ne_nil (s : List Char) : ∀ run : List Char,
    (run ≠ [] ∨ s ≠ []) → colonSubGo run 0 s ≠ [] := by
  induction s with
  | nil =>
    intro run h
    rcases h with h | h
    · simp [colonSubGo, h]
    · exact absurd rfl h
  | cons c rest ih =>
    intro run h
    by_cases hwc : isWordChar c = true
    · rw [show colonSubGo run 0 (c :: rest) = colonSubGo (c :: run) 0 rest by
        simp [colonSubGo, hwc]]
      exact ih (c :: run) (Or.inl (by simp))
    · by_cases hcc : c = ':' ∧ run ≠ []
      · obtain ⟨hc1, hc2⟩ := hcc
        subst hc1
        rw [show colonSubGo run 0 (':' :: rest) = colonSubGo run 1 rest by
          simp [colonSubGo, hwc, hc2]]
        exact colonSubGo_one_ne_nil run rest
      · rw [show colonSubGo run 0 (c :: rest) = run.reverse ++ c :: colonSubGo [] 0 rest by
          simp [colonSubGo, hwc, hcc]]
        simp

theorem colonSubGo_two_ne_nil (s : List Char) (h : s ≠ []) :
    colonSubGo [] 2 s ≠ [] := by
  cases s with
  | nil => exact absurd rfl h
  | cons c rest =>
    by_cases hwc : isWordChar c = true
    · simp [colonSubGo, hwc]
    · simp [colonSubGo, hwc]

theorem colonSubGo_lastNonSpace (s : List Char) :
    (∀ run : List Char, (∀ a ∈ run, isWordChar a = true) → lastNonSpace s →
      lastNonSpace (colonSubGo run 0 s)) ∧
    (∀ run : List Char, (∀ a ∈ run, isWordChar a = true) → lastNonSpace s →
      lastNonSpace (colonSubGo run 1 s)) ∧
    (lastNonSpace s → lastNonSpace (colonSubGo [] 2 s)) := by
  induction s with
  | nil =>
    refine ⟨?_, ?_, ?_⟩
    · intro run hw hl
      rw [show colonSubGo run 0 [] = run.reverse by simp [colonSubGo]]
      cases run with
      | nil =>
        intro b hb
        cases hb
      | cons y x =>
        rw [List.reverse_cons]
        exact lastNonSpace_concat _ y (isWordChar_nonspace y (hw y (List.mem_cons_self y x)))
    · intro run hw hl
      rw [show colonSubGo run 1 [] = run.reverse ++ [':'] by simp [colonSubGo]]
      exact lastNonSpace_concat _ ':' (by decide)
    · intro hl
      rw [show colonSubGo [] 2 [] = [] by simp [colonSubGo]]
      intro b hb
      cases hb
  | cons c rest ih =>
    obtain ⟨ih0, ih1, ih2⟩ := ih
    refine ⟨?_, ?_, ?_⟩
    · intro run hw hl
      by_cases hwc : isWordChar c = true
      · rw [show colonSubGo run 0 (c :: rest) = colonSubGo (c :: run) 0 rest by
          simp [colonSubGo, hwc]]
        refine ih0 (c :: run) ?_ (lastNonSpace_tail c rest hl)
        intro a ha
        rcases List.mem_cons.mp ha with rfl | ha2
        · exact hwc
        · exact hw a ha2
      · by_cases hcc : c = ':' ∧ run ≠ []
        · obtain ⟨hc1, hc2⟩ := hcc
          subst hc1
          rw [show colonSubGo run 0 (':' :: rest) = colonSubGo run 1 rest by
            simp [colonSubGo, hwc, hc2]]
          exact ih1 run hw (lastNonSpace_tail ':' rest hl)
        · rw [show colonSubGo run 0 (c :: rest) =
            run.reverse ++ c :: colonSubGo [] 0 rest by simp [colonSubGo, hwc, hcc]]
          by_cases hr : rest = []
          · subst hr
            rw [show colonSubGo [] 0 ([] : List Char) = [] by simp [colonSubGo]]
            have he : run.reverse ++ c :: ([] : List Char) = run.reverse ++ [c] := rfl
            rw [he]
            exact lastNonSpace_concat run.reverse c (hl c (List.getLast?_singleton c))
          · have hgo := ih0 [] (by simp) (lastNonSpace_tail c rest hl)
            have hgone := colonSubGo_zero_ne_nil rest [] (Or.inr hr)
            have h1 : lastNonSpace ([c] ++ colonSubGo [] 0 rest) :=
              lastNonSpace_append_right [c] _ hgone hgo
            exact lastNonSpace_append_right run.reverse _ (by simp) h1
    · intro run hw hl
      by_cases hwc : isWordChar c = true
      · rw [show colonSubGo run 1 (c :: rest) =
          run.reverse ++ ':' :: ' ' :: c :: colonSubGo [] 2 rest by simp [colonSubGo, hwc]]
        by_cases hr : rest = []
        · subst hr
          rw [show colonSubGo [] 2 ([] : List Char) = [] by simp [colonSubGo]]
          have he : run.reverse ++ ':' :: ' ' :: c :: ([] : List Char) =
              (run.reverse ++ [':', ' ']) ++ [c] := by simp
          rw [he]
          exact lastNonSpace_concat _ c (isWordChar_nonspace c hwc)
        · have hgo := ih2 (lastNonSpace_tail c rest hl)
          have hgone := colonSubGo_two_ne_nil rest hr
          have h1 : lastNonSpace ([':', ' ', c] ++ colonSubGo [] 2 rest) :=
            lastNonSpace_append_right [':', ' ', c] _ hgone hgo
          exact lastNonSpace_append_right run.reverse _ (by simp) h1
      · rw [show colonSubGo run 1 (c :: rest) =
          run.reverse ++ ':' :: c :: colonSubGo [] 0 rest by simp [colonSubGo, hwc]]
        by_cases hr : rest = []
        · subst hr
          rw [show colonSubGo [] 0 ([] : List Char) = [] by simp [colonSubGo]]
          have he : run.reverse ++ ':' :: c :: ([] : List Char) =
              (run.reverse ++ [':']) ++ [c] := by simp
          rw [he]
          exact lastNonSpace_concat _ c (hl c (List.getLast?_singleton c))
        · have hgo := ih0 [] (by simp) (lastNonSpace_tail c rest hl)
          have hgone := colonSubGo_zero_ne_nil rest [] (Or.inr hr)
          have h1 : lastNonSpace ([':', c] ++ colonSubGo [] 0 rest) :=
            lastNonSpace_append_right [':', c] _ hgone hgo
          exact lastNonSpace_append_right run.reverse _ (by simp) h1
    · intro hl
      by_cases hwc : isWordChar c = true
      · rw [show colonSubGo [] 2 (c :: rest) = c :: colonSubGo [] 2 rest by
          simp [colonSubGo, hwc]]
        by_cases hr : rest = []
        · subst hr
          rw [show colonSubGo [] 2 ([] : List Char) = [] by simp [colonSubGo]]
          intro b hb
          rw [List.getLast?_singleton] at hb
          rw [← Option.some.inj hb]
          exact isWordChar_nonspace c hwc
        · have hgo := ih2 (lastNonSpace_tail c rest hl)
          have hgone := colonSubGo_two_ne_nil rest hr
          exact lastNonSpace_append_right [c] _ hgone hgo
      · rw [show colonSubGo [] 2 (c :: rest) = c :: colonSubGo [] 0 rest by
          simp [colonSubGo, hwc]]
        by_cases hr : rest = []
        · subst hr
          rw [show colonSubGo [] 0 ([] : List Char) = [] by simp [colonSubGo]]
          intro b hb
          rw [List.getLast?_singleton] at hb
          rw [← Option.some.inj hb]
          exact hl c (List.getLast?_singleton c)
        · have hgo := ih0 [] (by simp) (lastNonSpace_tail c rest hl)
          have hgone := colonSubGo_zero_ne_nil rest [] (Or.inr hr)
          exact lastNonSpace_append_right [c] _ hgone hgo

theorem head?_dropWhile_false (p : Char → Bool) (l : List Char) (b : Char)
    (h : (l.dropWhile p).head? = some b) : p b = false := by
  induction l with
  | nil => cases h
  | cons c t ih =>
    rw [List.dropWhile_cons] at h
    by_cases hp : p c = true
    · rw [if_pos hp] at h
      exact ih h
    · rw [if_neg hp] at h
      simp only [List.head?_cons, Option.some.injEq] at h
      rw [← h, ← Bool.not_eq_true]
      exact hp

theorem pyStrip_lastNonSpace (s : List Char) : lastNonSpace (pyStrip s) := by
  intro b hb
  unfold pyStrip at hb
  rw [List.getLast?_reverse] at hb
  exact head?_dropWhile_false isPySpace _ b hb

theorem colonSub_paren_cons (r : List Char) :
    colonSub ('(' :: r) = '(' :: colonSubGo [] 0 r := by
  unfold colonSub
  simp +decide [colonSubGo]

theorem formatSchemaDefinition_fixed (s : List Char) (h1 : pyStrip s = s)
    (h2 : s.head? = some '(') (h3 : hasColonPair s = false) :
    formatSchemaDefinition s = s := by
  unfold formatSchemaDefinition
  rw [h1, if_pos h2]
  unfold colonSub
  have := (colonSubGo_no_pair s).1 [] (by simp) (by simpa using h3)
  simpa using this

theorem formatSchemaDefinition_head_lastNonSpace (s : List Char) :
    (formatSchemaDefinition s).head? = some '(' ∧
    lastNonSpace (formatSchemaDefinition s) := by
  unfold formatSchemaDefinition
  by_cases hh : (pyStrip s).head? = some '('
  · rw [if_pos hh]
    obtain ⟨r2, hr2⟩ : ∃ r2, pyStrip s = '(' :: r2 := by
      cases hps : pyStrip s with
      | nil =>
        rw [hps] at hh
        cases hh
      | cons x xs =>
        rw [hps] at hh
        simp only [List.head?_cons, Option.some.injEq] at hh
        exact ⟨xs, by rw [hh]⟩
    constructor
    · rw [hr2, colonSub_paren_cons]
      rfl
    · unfold colonSub
      exact (colonSubGo_lastNonSpace _).1 [] (by simp) (pyStrip_lastNonSpace s)
  · rw [if_neg hh]
    constructor
    · rw [colonSub_paren_cons]
      rfl
    · unfold colonSub
      apply (colonSubGo_lastNonSpace _).1 [] (by simp)
      have he : ('(' :: (pyStrip s ++ [')'])) = ('(' :: pyStrip s) ++ [')'] := by simp
      rw [he]
      exact lastNonSpace_concat _ ')' (by decide)

theorem formatSchemaDefinition_stable (s : List Char)
    (h : hasColonPair (formatSchemaDefinition s) = false) :
    formatSchemaDefinition (formatSchemaDefinition s) = formatSchemaDefinition s := by
  obtain ⟨hh, hl⟩ := formatSchemaDefinition_head_lastNonSpace s
  have hnn : formatSchemaDefinition s ≠ [] := by
    intro he
    rw [he] at hh
    cases hh
  obtain ⟨b, hb⟩ : ∃ b, (formatSchemaDefinition s).getLast? = some b := by
    cases hgl : (formatSchemaDefinition s).getLast? with
    | some b => exact ⟨b, rfl⟩
    | none =>
      have hs := List.getLast?_isSome.mpr hnn
      rw [hgl] at hs
      cases hs
  have hstrip : pyStrip (formatSchemaDefinition s) = formatSchemaDefinition s :=
    pyStrip_eq_self _ '(' b hh (by decide) hb (hl b hb)
  exact formatSchemaDefinition_fixed _ hstrip hh h

/-- C8 counterexample: table schema formatting is not idempotent as the
claim states it. On the schema string `(a:b:c)` the first pass yields
`(a: b:c)` (the scan resumes after the replaced `a:b`, so `b:c` survives)
and the second pass yields `(a: b: c)`. -/
theorem formatSchemaDefinition_not_idempotent :
    formatSchemaDefinition (formatSchemaDefinition (("(a:b:c)").data)) ≠
      formatSchemaDefinition (("(a:b:c)").data) := by decide

/-- C8 (amended): `_format_schema_definition` applied to its own output
yields the same string whenever that output contains no remaining
word-colon-word occurrence (which chained colons such as `a:b:c` can leave
behind); in particular a schema string that is already trimmed, already
wrapped in parentheses and already has no word-colon-word occurrence (one
space after each colon) is returned unchanged. -/
theorem formatSchemaDefinition_conditional_idempotent :
    (∀ s : List Char, hasColonPair (formatSchemaDefinition s) = false →
      formatSchemaDefinition (formatSchemaDefinition s) = formatSchemaDefinition s) ∧
    (∀ s : List Char, pyStrip s = s → s.head? = some '(' → hasColonPair s = false →
      formatSchemaDefinition s = s) :=
  ⟨formatSchemaDefinition_stable, formatSchemaDefinition_fixed⟩

theorem formatSchemaDefinition_conditional_idempotent_wit :
    formatSchemaDefinition (formatSchemaDefinition (("(a: string, b: long)").data)) =
      formatSchemaDefinition (("(a: string, b: long)").data) ∧
    formatSchemaDefinition (("(a: string)").data) = (("(a: string)").data) :=
  ⟨formatSchemaDefinition_conditional_idempotent.1 (("(a: string, b: long)").data)
      (by decide),
   formatSchemaDefinition_conditional_idempotent.2 (("(a: string)").data)
      (by decide) (by decide) (by decide)⟩
